import Mathlib

/-!
Verification of the slopcannon worktree lifecycle and cleanup-safety engine.

The development shallowly embeds the pure logic of the repository:
`src/git.ts` (repository inspection, branch enumeration, worktree
enumeration, name validation, path policy), `src/cleanup.ts` (the cleanup
safety classifier and the reclaim batch loop) and `src/cli.ts` (argument
parsing).  External processes are modelled by oracles recording what the
spawned command returned (trimmed stdout on success, or the failure
signal), exactly mirroring how the TypeScript consumes them.
-/

namespace Slopcannon

/-! ### Models of the JavaScript string primitives used by the source

All operations are implemented by structural recursion over `String.data`
so that every concrete instance can be evaluated by `decide` or `rfl`.
-/

/-- Model of `String.prototype.split` with a one-character separator:
`splitOnChar c l` splits the character list `l` at every occurrence of `c`. -/
def splitOnChar (c : Char) : List Char → List (List Char)
  | [] => [[]]
  | x :: rest =>
    let r := splitOnChar c rest
    if x = c then [] :: r
    else
      match r with
      | [] => [[x]]
      | h :: t => (x :: h) :: t

/-- Model of `raw.split("\n")` as used throughout `git.ts`. -/
def jsSplitLines (s : String) : List String :=
  (splitOnChar '\x0a' s.data).map (fun l => String.mk l)

/-- Model of `String.prototype.trim`: drop whitespace from both ends. -/
def trimChars (l : List Char) : List Char :=
  ((l.dropWhile Char.isWhitespace).reverse.dropWhile Char.isWhitespace).reverse

/-- Model of `line.trim()`. -/
def jsTrim (s : String) : String := String.mk (trimChars s.data)

/-- Model of `String.prototype.startsWith`. -/
def strStartsWith (s p : String) : Bool := p.data.isPrefixOf s.data

/-- Model of `String.prototype.endsWith`. -/
def strEndsWith (s p : String) : Bool := p.data.isSuffixOf s.data

/-- Model of `String.prototype.slice(n)`: drop the first `n` characters. -/
def strDrop (s : String) (n : Nat) : String := String.mk (s.data.drop n)

/-- Remove the first occurrence of the nonempty pattern `pat` from a
character list; helper for `jsReplaceFirst`. -/
def removeFirstOcc (pat : List Char) : List Char → List Char
  | [] => []
  | x :: rest =>
    if pat.isPrefixOf (x :: rest) then (x :: rest).drop pat.length
    else x :: removeFirstOcc pat rest

/-- Model of `s.replace(pat, "")` for a plain (non-regex) pattern, which in
JavaScript removes only the first occurrence of `pat`. -/
def jsReplaceFirst (s pat : String) : String := String.mk (removeFirstOcc pat.data s.data)

/-- JavaScript truthiness of a nullable string: `null`/`undefined` and the
empty string are falsy, every other string is truthy. -/
def optStrTruthy : Option String → Bool
  | none => false
  | some s => !(s == "")

/-- Ordinal (code-unit) lexicographic strict comparison of character lists,
the order meant by the specification when it says case-sensitive ordinal
lexicographic comparison. -/
def ordinalLtB : List Char → List Char → Bool
  | [], [] => false
  | [], _ :: _ => true
  | _ :: _, [] => false
  | a :: as, b :: bs =>
    if a < b then true else if b < a then false else ordinalLtB as bs

/-- Ordinal three-way string comparator (what `(a, b) => a < b ? -1 : ...`
would compute); used as one concrete instantiation of a comparator. -/
def ordCompare (a b : String) : Int :=
  if ordinalLtB a.data b.data then -1
  else if ordinalLtB b.data a.data then 1
  else 0

/-- ASCII lower-casing of a character, helper for the collation model. -/
def asciiLowerChar (c : Char) : Char :=
  if 'A' ≤ c && c ≤ 'Z' then Char.ofNat (c.toNat + 32) else c

/-- Model of `String.prototype.localeCompare` with no arguments, restricted
to ASCII strings: under the default locale the root collation compares base
letters case-insensitively at primary strength (so "apple" precedes
"Zebra"), and falls back to the code-unit order to break exact primary
ties.  This is the comparator `git.ts` passes to `Array.prototype.sort`. -/
def localeCompareAscii (a b : String) : Int :=
  let la := a.data.map asciiLowerChar
  let lb := b.data.map asciiLowerChar
  if ordinalLtB la lb then -1
  else if ordinalLtB lb la then 1
  else if ordinalLtB a.data b.data then -1
  else if ordinalLtB b.data a.data then 1
  else 0

/-! ### Data model (`git.ts` interfaces) -/

/-- `BranchEntry` from `git.ts`: display name and the git ref to use. -/
structure BranchEntry where
  name : String
  ref : String
deriving DecidableEq

/-- `WorktreeEntry` from `git.ts`: path, optional branch (none when the
worktree is detached), and the main-worktree flag. -/
structure WorktreeEntry where
  path : String
  branch : Option String
  isMain : Bool
deriving DecidableEq

/-! ### Default branch detection (`git.ts`, `detectDefaultBranch`) -/

/-- Outcomes of the external probes issued by `detectDefaultBranch`.
`symbolicRef` is the trimmed stdout of `git symbolic-ref
refs/remotes/origin/HEAD` (none when the command exited nonzero and the
surrounding `try` swallowed the failure); `mainExists` and `masterExists`
record whether `git rev-parse --verify` succeeded for `refs/heads/main` and
`refs/heads/master`; `showCurrent` is the result of
`git branch --show-current`, whose failure is NOT caught by the source. -/
structure DefaultBranchProbes where
  symbolicRef : Option String
  mainExists : Bool
  masterExists : Bool
  showCurrent : Except String String

/-- Model of `detectDefaultBranch` (`git.ts` lines 18-39).  The final
`return exec(["branch", "--show-current"], root) || "main"` is outside any
`try`, so a command failure propagates as an error, while a successful but
empty result (detached HEAD) falls back to the literal "main". -/
def detectDefaultBranch (p : DefaultBranchProbes) : Except String String :=
  match p.symbolicRef with
  | some ref => .ok (jsReplaceFirst ref "refs/remotes/origin/")
  | none =>
    if p.mainExists then .ok "main"
    else if p.masterExists then .ok "master"
    else
      match p.showCurrent with
      | .ok cur => .ok (if cur == "" then "main" else cur)
      | .error e => .error e

/-! ### Branch enumeration (`git.ts`, `listBranches`) -/

/-- First pass of `listBranches`: collect the trimmed nonempty lines that
do not start with "origin/" (the local branches). -/
def collectLocalBranches (lines : List String) : List String :=
  (lines.map jsTrim).filter (fun n => !(n == "") && !(strStartsWith n "origin/"))

/-- The short display name of a raw branch line: strip the first
"origin/" when the name starts with it (mirrors
`isRemote ? name.replace("origin/", "") : name`). -/
def shortNameOf (name : String) : String :=
  if strStartsWith name "origin/" then jsReplaceFirst name "origin/" else name

/-- Second pass of `listBranches`: walk the raw lines in order, skip blank
lines and the remote HEAD pseudo-branch, deduplicate by short name, and
record the ref, preferring the local name when a local branch of that short
name exists. -/
def buildEntries (locals : List String) : List String → List BranchEntry → List BranchEntry
  | [], acc => acc
  | line :: rest, acc =>
    let name := jsTrim line
    if name == "" then buildEntries locals rest acc
    else
      let short := shortNameOf name
      if short == "HEAD" then buildEntries locals rest acc
      else if acc.any (fun e => e.name == short) then buildEntries locals rest acc
      else buildEntries locals rest (acc ++ [⟨short, if locals.contains short then short else name⟩])

/-- The comparator `listBranches` passes to `Array.prototype.sort`
(`git.ts` lines 78-82), parameterized by the string collation `lc` that
models `localeCompare`. -/
def branchCmp (lc : String → String → Int) (defaultBranch : String) (a b : BranchEntry) : Int :=
  if a.name == defaultBranch then -1
  else if b.name == defaultBranch then 1
  else lc a.name b.name

/-- Model of `listBranches` (`git.ts` lines 46-85): `raw` is the trimmed
stdout of `git branch -a --format=%(refname:short)` and `lc` models the
host collation used by `localeCompare`.  `Array.prototype.sort` is a
stable comparator sort, modelled by `List.insertionSort`. -/
def listBranches (lc : String → String → Int) (raw : String) (defaultBranch : String) :
    List BranchEntry :=
  let lines := jsSplitLines raw
  let entries := buildEntries (collectLocalBranches lines) lines []
  entries.insertionSort (fun a b => branchCmp lc defaultBranch a b ≤ 0)

/-! ### Branch name validation (`git.ts`, `validateBranchName`) -/

/-- Outcomes of the two read-only probes issued by `validateBranchName`:
whether `git check-ref-format --branch name` exited 0, and whether
`git rev-parse --verify refs/heads/name` exited 0. -/
structure RefProbes where
  refFormatOk : String → Bool
  localBranchExists : String → Bool

/-- Model of `validateBranchName` (`git.ts` lines 103-126): a total
function (the source never throws; it only inspects exit codes) returning
a human-readable reason, or none for a valid non-colliding name. -/
def validateBranchName (probes : RefProbes) (name : String) : Option String :=
  if !(probes.refFormatOk name) then some "Invalid branch name"
  else if probes.localBranchExists name then some ("Branch '" ++ name ++ "' already exists")
  else none

/-! ### Worktree path policy (`git.ts`, `computeWorktreePath`) -/

/-- Model of `branch.replace(/\//g, "-")`: a global single-character regex
replace maps each character independently. -/
def sanitizeBranch (branch : String) : String :=
  String.mk (branch.data.map (fun c => if c == '/' then '-' else c))

/-- Model of Node `path.join` for the argument shapes used here: a
directory joined with a single relative segment. -/
def pathJoin (dir name : String) : String :=
  if dir == "" then name
  else if strEndsWith dir "/" then dir ++ name
  else dir ++ "/" ++ name

/-- Model of `computeWorktreePath` (`git.ts` lines 128-135). -/
def computeWorktreePath (parentDir repoName branch : String) : String :=
  pathJoin parentDir (repoName ++ "-" ++ sanitizeBranch branch)

/-! ### Worktree enumeration (`git.ts`, `listWorktrees`) -/

/-- The `current : Partial<WorktreeEntry>` accumulator of the porcelain
parser: an optional path and an optional branch (none both when no branch
line was seen and when a `detached` marker set it to null, exactly as the
`current.branch ?? null` in the source collapses the two). -/
structure WtParseState where
  path : Option String
  branch : Option String
deriving DecidableEq

/-- Flush of a parsed record (`git.ts` lines 156-163 and 167-172): push an
entry when the accumulated path is truthy, marking it main exactly when it
is the first entry pushed. -/
def wtFlush (st : WtParseState) (entries : List WorktreeEntry) : List WorktreeEntry :=
  match st.path with
  | some p => if p == "" then entries else entries ++ [⟨p, st.branch, entries.isEmpty⟩]
  | none => entries

/-- One line of the porcelain parser loop (`git.ts` lines 148-165). -/
def wtStep (acc : WtParseState × List WorktreeEntry) (line : String) :
    WtParseState × List WorktreeEntry :=
  let st := acc.1
  let entries := acc.2
  if strStartsWith line "worktree " then ({ st with path := some (strDrop line 9) }, entries)
  else if strStartsWith line "branch refs/heads/" then
    ({ st with branch := some (strDrop line 18) }, entries)
  else if line == "detached" then ({ st with branch := none }, entries)
  else if line == "" then (⟨none, none⟩, wtFlush st entries)
  else acc

/-- Model of `listWorktrees` (`git.ts` lines 143-176): `raw` is the
trimmed stdout of `git worktree list --porcelain`. -/
def listWorktrees (raw : String) : List WorktreeEntry :=
  let res := (jsSplitLines raw).foldl wtStep (⟨none, none⟩, [])
  wtFlush res.1 res.2

/-! ### Merge and remote probes (`git.ts`) -/

/-- Model of `isBranchMerged` (`git.ts` lines 178-185): `mergedOutput` is
the trimmed stdout of `git branch --merged into` (none when the command
failed and the `catch` returned false); the branch is merged when some
line trims to exactly the branch name. -/
def isBranchMerged (mergedOutput : Option String) (branch : String) : Bool :=
  match mergedOutput with
  | some out => (jsSplitLines out).any (fun l => jsTrim l == branch)
  | none => false

/-- Model of `isBranchDeletedOnRemote` (`git.ts` lines 187-193):
`remoteRefExists` records whether `git rev-parse --verify
refs/remotes/origin/branch` exited 0; a nonzero exit means deleted. -/
def isBranchDeletedOnRemote (remoteRefExists : Bool) : Bool := !remoteRefExists

/-! ### Cleanup safety classifier (`cleanup.ts`, `runCleanup` lines 105-118) -/

/-- `PrInfo` from `cleanup.ts`. -/
structure PrInfo where
  number : Nat
  title : String
  state : String
  url : String
deriving DecidableEq

/-- `WorktreeCandidate` from `cleanup.ts`. -/
structure WorktreeCandidate where
  entry : WorktreeEntry
  merged : Bool
  deletedOnRemote : Bool
  pr : Option PrInfo
  safeToClean : Bool
deriving DecidableEq

/-- External state consulted while classifying one cleanup run:
the trimmed stdout of `git branch --merged defaultBranch` (none on
failure), the per-branch remote tracking ref existence probe, the
best-effort `gh pr list` lookup, and whether `gh` is installed. -/
structure CleanupEnv where
  mergedOutput : Option String
  remoteRefExists : String → Bool
  prLookup : String → Option PrInfo
  hasGh : Bool

/-- The `pr?.state === "MERGED"` test from `cleanup.ts` line 114. -/
def prMergedState : Option PrInfo → Bool
  | some x => x.state == "MERGED"
  | none => false

/-- Model of the candidate construction in `runCleanup` (`cleanup.ts`
lines 105-118).  Each `entry.branch ? probe(entry.branch) : fallback`
conditional uses JavaScript truthiness of the nullable branch string. -/
def candidateFor (env : CleanupEnv) (entry : WorktreeEntry) : WorktreeCandidate :=
  let merged :=
    if optStrTruthy entry.branch then isBranchMerged env.mergedOutput (entry.branch.getD "")
    else false
  let deletedOnRemote :=
    if optStrTruthy entry.branch then
      isBranchDeletedOnRemote (env.remoteRefExists (entry.branch.getD ""))
    else false
  let pr :=
    if optStrTruthy entry.branch && env.hasGh then env.prLookup (entry.branch.getD "")
    else none
  let safeToClean := merged || (deletedOnRemote && !(optStrTruthy entry.branch)) || prMergedState pr
  ⟨entry, merged, deletedOnRemote, pr, safeToClean⟩

/-! ### Reclaimer (`cleanup.ts`, `runCleanup` lines 155-178) -/

/-- The identifier used in a reclaim error line:
`c.entry.branch ?? c.entry.path` (nullish coalescing). -/
def reclaimLabel (c : WorktreeCandidate) : String := c.entry.branch.getD c.entry.path

/-- One iteration of the reclaim loop.  `removeResult c` is none when
`removeWorktree` succeeded and carries the thrown error message otherwise.
`deleteResult` models the subsequent `deleteBranch` attempt; the source
wraps that call in its own `try {} catch {}` (lines 162-164), so its
outcome never influences the removed count or the error list. -/
def reclaimStep (removeResult : WorktreeCandidate → Option String)
    (_deleteResult : String → Option String)
    (acc : Nat × List String) (c : WorktreeCandidate) : Nat × List String :=
  match removeResult c with
  | none => (acc.1 + 1, acc.2)
  | some msg => (acc.1, acc.2 ++ [reclaimLabel c ++ ": " ++ msg])

/-- Model of the reclaim batch loop (`cleanup.ts` lines 155-170): fold the
confirmed candidates left to right, counting successes and collecting
per-item error lines. -/
def reclaimBatch (removeResult : WorktreeCandidate → Option String)
    (deleteResult : String → Option String)
    (toRemove : List WorktreeCandidate) : Nat × List String :=
  toRemove.foldl (reclaimStep removeResult deleteResult) (0, [])

/-! ### CLI argument parsing (`cli.ts`, `parseArgs` lines 29-51) -/

/-- `CliArgs` from `types.ts`. -/
structure CliArgs where
  pathFile : Option String
  help : Bool
  version : Bool
  config : Bool
  cleanup : Bool
deriving DecidableEq

/-- The initial `result` record of `parseArgs`. -/
def initCliArgs : CliArgs := ⟨none, false, false, false, false⟩

/-- Model of the `parseArgs` loop.  `--path-file` consumes the following
argument only when one exists (`i + 1 < args.length`); when it is the last
argument that condition fails and the token falls through every later test
(it is none of the subcommands and it starts with a dash), so it is
silently ignored.  A dash-free unknown token is a fatal usage error,
modelled as `Except.error` with the printed message. -/
def parseArgsGo : List String → CliArgs → Except String CliArgs
  | [], acc => .ok acc
  | a :: rest, acc =>
    if a == "--help" || a == "-h" then parseArgsGo rest { acc with help := true }
    else if a == "--version" || a == "-v" || a == "-V" then
      parseArgsGo rest { acc with version := true }
    else if a == "--path-file" && !rest.isEmpty then
      match rest with
      | v :: rest2 => parseArgsGo rest2 { acc with pathFile := some v }
      | [] => .ok acc
    else if a == "config" then parseArgsGo rest { acc with config := true }
    else if a == "cleanup" || a == "clean" then parseArgsGo rest { acc with cleanup := true }
    else if !(strStartsWith a "-") then .error ("Unknown command: " ++ a)
    else parseArgsGo rest acc

/-- Model of `parseArgs` (`cli.ts` lines 29-51) on the argument list. -/
def parseArgs (args : List String) : Except String CliArgs :=
  parseArgsGo args initCliArgs

/-- The terminal action of the main flow after the TUI returned a
worktree path (`cli.ts` lines 117-130). -/
inductive TerminalAction where
  | writePathFile (file : String)
  | launchAssistant
deriving DecidableEq

/-- Model of the mode dispatch `if (args.pathFile) {...}` (`cli.ts` line
117): truthiness of the nullable path-file string decides whether the path
is written or the assistant is launched. -/
def dispatchAfterTui (args : CliArgs) : TerminalAction :=
  if optStrTruthy args.pathFile then .writePathFile (args.pathFile.getD "")
  else .launchAssistant

/-! ### Concrete sample data used by witnesses -/

/-- Sample name probes: the format check rejects names containing a space,
and the only existing local branch is named "existing". -/
def sampleRefProbes : RefProbes :=
  ⟨fun n => !(n.data.contains ' '), fun n => n == "existing"⟩

end Slopcannon

namespace Slopcannon

/-! ### Helper lemmas -/

/-- Appending to a string whose data is nonempty yields a nonempty string. -/
theorem append_ne_empty_left (a b : String) (h : a.data ≠ []) : a ++ b ≠ "" := by
  intro hc
  apply h
  have hd : a.data ++ b.data = [] := by
    have h2 := congrArg String.data hc
    simpa [String.data_append] using h2
  exact (List.append_eq_nil.mp hd).1

/-! ### C8: worktree path policy -/

/-- C8: computeWorktreePath is a pure function that replaces every
separator character in the branch name with a hyphen and joins the result
as parentDir, a slash, repoName, a hyphen and the sanitized branch; in
particular computeWorktreePath "/work" "app" "feat/login" evaluates to
"/work/app-feat-login". -/
theorem C8_computeWorktreePath :
    (∀ parentDir repoName branch : String, parentDir ≠ "" →
      strEndsWith parentDir "/" = false →
      computeWorktreePath parentDir repoName branch =
        parentDir ++ "/" ++ repoName ++ "-" ++ sanitizeBranch branch) ∧
    (∀ branch : String, ∀ c ∈ (sanitizeBranch branch).data, c ≠ '/') ∧
    computeWorktreePath "/work" "app" "feat/login" = "/work/app-feat-login" := by
  refine ⟨?_, ?_, by decide⟩
  · intro pd rn b hpd hslash
    have hpd2 : (pd == "") = false := by
      simpa using hpd
    simp only [computeWorktreePath, pathJoin, hpd2, hslash, Bool.false_eq_true, if_false,
      String.append_assoc]
  · intro b c hc hslash
    have hc2 : c ∈ b.data.map (fun x => if x == '/' then '-' else x) := hc
    obtain ⟨x, _, hxc⟩ := List.mem_map.mp hc2
    by_cases hx : x = '/'
    · subst hx
      simp at hxc
      subst hslash
      exact absurd hxc.symm (by decide)
    · have : (x == '/') = false := by simpa using hx
      rw [this] at hxc
      simp at hxc
      subst hxc
      exact hx hslash

/-- Witness for C8 at the concrete spec example. -/
theorem C8_computeWorktreePath_witness :
    ("/work" : String) ≠ "" ∧ strEndsWith "/work" "/" = false ∧
    computeWorktreePath "/work" "app" "feat/login" =
      "/work" ++ "/" ++ "app" ++ "-" ++ sanitizeBranch "feat/login" :=
  ⟨by decide, by decide, C8_computeWorktreePath.1 "/work" "app" "feat/login" (by decide) (by decide)⟩

/-! ### C4: branch name validation -/

/-- C4: validateBranchName never raises (it is a total function of the two
probe outcomes): it returns the nonempty reason "Invalid branch name" when
the format probe fails, a nonempty collision reason when a local branch of
that exact name exists, and none for a well-formed non-colliding name. -/
theorem C4_validateBranchName : ∀ (probes : RefProbes) (name : String),
    (probes.refFormatOk name = false →
      validateBranchName probes name = some "Invalid branch name") ∧
    (probes.refFormatOk name = true → probes.localBranchExists name = true →
      validateBranchName probes name = some ("Branch '" ++ name ++ "' already exists")) ∧
    (probes.refFormatOk name = true → probes.localBranchExists name = false →
      validateBranchName probes name = none) ∧
    ("Invalid branch name" : String) ≠ "" ∧
    ("Branch '" ++ name ++ "' already exists" : String) ≠ "" := by
  intro probes name
  refine ⟨?_, ?_, ?_, by decide, ?_⟩
  · intro h; simp [validateBranchName, h]
  · intro h1 h2; simp [validateBranchName, h1, h2]
  · intro h1 h2; simp [validateBranchName, h1, h2]
  · apply append_ne_empty_left
    rw [String.data_append]
    intro hnil
    exact absurd (List.append_eq_nil.mp hnil).1 (by decide)

/-- Witness for C4: a name with a space is rejected, a colliding name is
rejected with a nonempty reason, and a fresh well-formed name passes. -/
theorem C4_validateBranchName_witness :
    sampleRefProbes.refFormatOk "bad name" = false ∧
    validateBranchName sampleRefProbes "bad name" = some "Invalid branch name" ∧
    validateBranchName sampleRefProbes "existing" =
      some ("Branch '" ++ "existing" ++ "' already exists") ∧
    validateBranchName sampleRefProbes "fresh" = none :=
  ⟨by decide, (C4_validateBranchName sampleRefProbes "bad name").1 (by decide),
    (C4_validateBranchName sampleRefProbes "existing").2.1 (by decide) (by decide),
    (C4_validateBranchName sampleRefProbes "fresh").2.2.1 (by decide) (by decide)⟩

/-! ### C7: default branch detection -/

/-- C7 (amended): detection tries the probes in the claimed order and the
first successful probe wins; however the literal fallback "main" is
produced when the current-branch probe succeeds with empty output, while a
failure of that probe propagates as an error rather than yielding the
fallback. -/
theorem C7_detectDefaultBranch_chain :
    (∀ (p : DefaultBranchProbes) (ref : String), p.symbolicRef = some ref →
      detectDefaultBranch p = .ok (jsReplaceFirst ref "refs/remotes/origin/")) ∧
    (∀ p : DefaultBranchProbes, p.symbolicRef = none → p.mainExists = true →
      detectDefaultBranch p = .ok "main") ∧
    (∀ p : DefaultBranchProbes, p.symbolicRef = none → p.mainExists = false →
      p.masterExists = true → detectDefaultBranch p = .ok "master") ∧
    (∀ (p : DefaultBranchProbes) (cur : String), p.symbolicRef = none → p.mainExists = false →
      p.masterExists = false → p.showCurrent = .ok cur → cur ≠ "" →
      detectDefaultBranch p = .ok cur) ∧
    (∀ p : DefaultBranchProbes, p.symbolicRef = none → p.mainExists = false →
      p.masterExists = false → p.showCurrent = .ok "" →
      detectDefaultBranch p = .ok "main") ∧
    (∀ (p : DefaultBranchProbes) (e : String), p.symbolicRef = none → p.mainExists = false →
      p.masterExists = false → p.showCurrent = .error e →
      detectDefaultBranch p = .error e) := by
  refine ⟨?_, ?_, ?_, ?_, ?_, ?_⟩
  · intro p ref h; simp [detectDefaultBranch, h]
  · intro p h1 h2; simp [detectDefaultBranch, h1, h2]
  · intro p h1 h2 h3; simp [detectDefaultBranch, h1, h2, h3]
  · intro p cur h1 h2 h3 h4 h5
    have h6 : (cur == "") = false := by simpa using h5
    simp [detectDefaultBranch, h1, h2, h3, h4, h6]
  · intro p h1 h2 h3 h4; simp [detectDefaultBranch, h1, h2, h3, h4]
  · intro p e h1 h2 h3 h4; simp [detectDefaultBranch, h1, h2, h3, h4]

/-- Witness for C7 exercising every step of the priority chain. -/
theorem C7_detectDefaultBranch_chain_witness :
    detectDefaultBranch ⟨some "refs/remotes/origin/trunk", true, false, .ok "dev"⟩ =
      .ok "trunk" ∧
    detectDefaultBranch ⟨none, true, false, .ok "dev"⟩ = .ok "main" ∧
    detectDefaultBranch ⟨none, false, true, .ok "dev"⟩ = .ok "master" ∧
    detectDefaultBranch ⟨none, false, false, .ok "dev"⟩ = .ok "dev" ∧
    detectDefaultBranch ⟨none, false, false, .ok ""⟩ = .ok "main" :=
  ⟨(C7_detectDefaultBranch_chain.1 _ "refs/remotes/origin/trunk" rfl).trans
      (congrArg Except.ok (by decide)),
    C7_detectDefaultBranch_chain.2.1 _ rfl rfl,
    C7_detectDefaultBranch_chain.2.2.1 _ rfl rfl rfl,
    C7_detectDefaultBranch_chain.2.2.2.1 _ "dev" rfl rfl rfl rfl (by decide),
    C7_detectDefaultBranch_chain.2.2.2.2.1 _ rfl rfl rfl rfl⟩

/-- C7 counterexample: with the symbolic-ref probe failed, no local main
or master, and the current-branch command itself failing, detection
returns the propagated error, not the literal fallback "main" that the
claim asserts for a failure of the current-branch probe. -/
theorem C7_detectDefaultBranch_cex :
    detectDefaultBranch ⟨none, false, false, .error "fatal: not a git repository"⟩ =
      .error "fatal: not a git repository" ∧
    detectDefaultBranch ⟨none, false, false, .error "fatal: not a git repository"⟩ ≠
      .ok "main" :=
  ⟨rfl, by simp [detectDefaultBranch]⟩

/-! ### C10: CLI argument parsing -/

/-- C10: the parser silently ignores any unrecognized argument starting
with a dash (only dash-free positional arguments produce the fatal usage
error), and a trailing path-file flag with no following value is silently
ignored, leaving pathFile unset so the assistant is launched. -/
theorem C10_parseArgs_unknown_args :
    (∀ (x : String) (rest : List String) (acc : CliArgs),
      strStartsWith x "-" = true →
      x ≠ "--help" → x ≠ "-h" → x ≠ "--version" → x ≠ "-v" → x ≠ "-V" → x ≠ "--path-file" →
      parseArgsGo (x :: rest) acc = parseArgsGo rest acc) ∧
    (∀ (x : String) (rest : List String) (acc : CliArgs),
      strStartsWith x "-" = false → x ≠ "config" → x ≠ "cleanup" → x ≠ "clean" →
      parseArgsGo (x :: rest) acc = .error ("Unknown command: " ++ x)) ∧
    (∀ acc : CliArgs, parseArgsGo ["--path-file"] acc = .ok acc) ∧
    parseArgs ["--path-file"] = .ok initCliArgs ∧
    initCliArgs.pathFile = none ∧
    dispatchAfterTui initCliArgs = .launchAssistant := by
  refine ⟨?_, ?_, fun acc => rfl, rfl, rfl, rfl⟩
  · intro x rest acc hdash h1 h2 h3 h4 h5 h6
    have hc1 : x ≠ "config" := by rintro rfl; exact absurd hdash (by decide)
    have hc2 : x ≠ "cleanup" := by rintro rfl; exact absurd hdash (by decide)
    have hc3 : x ≠ "clean" := by rintro rfl; exact absurd hdash (by decide)
    rw [parseArgsGo.eq_def]
    simp [h1, h2, h3, h4, h5, h6, hc1, hc2, hc3, hdash]
  · intro x rest acc hdash h1 h2 h3
    have hd1 : x ≠ "--help" := by rintro rfl; exact absurd hdash (by decide)
    have hd2 : x ≠ "-h" := by rintro rfl; exact absurd hdash (by decide)
    have hd3 : x ≠ "--version" := by rintro rfl; exact absurd hdash (by decide)
    have hd4 : x ≠ "-v" := by rintro rfl; exact absurd hdash (by decide)
    have hd5 : x ≠ "-V" := by rintro rfl; exact absurd hdash (by decide)
    have hd6 : x ≠ "--path-file" := by rintro rfl; exact absurd hdash (by decide)
    rw [parseArgsGo.eq_def]
    simp [h1, h2, h3, hd1, hd2, hd3, hd4, hd5, hd6, hdash]

/-! ### Properties of the ordinal comparison -/

/-- The ordinal strict order on character lists is transitive. -/
theorem ordinalLtB_trans : ∀ {a b c : List Char}, ordinalLtB a b = true →
    ordinalLtB b c = true → ordinalLtB a c = true := by
  intro a
  induction a with
  | nil =>
    intro b c hab hbc
    cases b <;> cases c <;> simp_all [ordinalLtB]
  | cons x xs ih =>
    intro b c hab hbc
    cases b with
    | nil => simp [ordinalLtB] at hab
    | cons y ys =>
      cases c with
      | nil => simp [ordinalLtB] at hbc
      | cons z zs =>
        simp only [ordinalLtB] at hab hbc ⊢
        by_cases hxy : x < y
        · by_cases hyz : y < z
          · simp [lt_trans hxy hyz]
          · by_cases hzy : z < y
            · simp [hyz, hzy] at hbc
            · have hyz2 : y = z := le_antisymm (not_lt.mp hzy) (not_lt.mp hyz)
              subst hyz2
              simp [hxy]
        · by_cases hyx : y < x
          · simp [hxy, hyx] at hab
          · have hxy2 : x = y := le_antisymm (not_lt.mp hyx) (not_lt.mp hxy)
            subst hxy2
            simp only [lt_irrefl, if_false] at hab
            by_cases hxz : x < z
            · simp [hxz]
            · by_cases hzx : z < x
              · simp [hxz, hzx] at hbc
              · have hxz2 : x = z := le_antisymm (not_lt.mp hzx) (not_lt.mp hxz)
                subst hxz2
                simp only [lt_irrefl, if_false] at hbc ⊢
                exact ih hab hbc

/-- Two character lists that are each not ordinally below the other are
equal. -/
theorem ordinalLtB_eq_of_not : ∀ {a b : List Char}, ordinalLtB a b = false →
    ordinalLtB b a = false → a = b := by
  intro a
  induction a with
  | nil =>
    intro b h1 _
    cases b with
    | nil => rfl
    | cons y ys => simp [ordinalLtB] at h1
  | cons x xs ih =>
    intro b h1 h2
    cases b with
    | nil => simp [ordinalLtB] at h2
    | cons y ys =>
      simp only [ordinalLtB] at h1 h2
      by_cases hxy : x < y
      · simp [hxy] at h1
      · by_cases hyx : y < x
        · simp [hxy, hyx] at h2
        · have hxy2 : x = y := le_antisymm (not_lt.mp hyx) (not_lt.mp hxy)
          subst hxy2
          simp only [lt_irrefl, if_false] at h1 h2
          rw [ih h1 h2]

/-- Nonpositive ordinal comparisons are transitive. -/
theorem ordCompare_le_trans : ∀ a b c : String, ordCompare a b ≤ 0 → ordCompare b c ≤ 0 →
    ordCompare a c ≤ 0 := by
  intro a b c hab hbc
  unfold ordCompare at hab hbc ⊢
  by_cases h1 : ordinalLtB a.data b.data = true
  · by_cases h2 : ordinalLtB b.data c.data = true
    · simp [ordinalLtB_trans h1 h2]
    · by_cases h3 : ordinalLtB c.data b.data = true
      · simp [h2, h3] at hbc
      · have hbc2 : b.data = c.data :=
          ordinalLtB_eq_of_not (by simpa using h2) (by simpa using h3)
        rw [← hbc2]
        simp [h1]
  · by_cases h4 : ordinalLtB b.data a.data = true
    · simp [h1, h4] at hab
    · have hab2 : a.data = b.data :=
        ordinalLtB_eq_of_not (by simpa using h1) (by simpa using h4)
      rw [hab2]
      exact hbc

/-- Nonpositive ordinal comparisons are total. -/
theorem ordCompare_le_total : ∀ a b : String, ordCompare a b ≤ 0 ∨ ordCompare b a ≤ 0 := by
  intro a b
  unfold ordCompare
  by_cases h1 : ordinalLtB a.data b.data = true
  · left; simp [h1]
  · by_cases h2 : ordinalLtB b.data a.data = true
    · right; simp [h2]
    · left; simp [h1, h2]

/-! ### Properties of the branch enumeration passes -/

/-- Entries already accumulated survive the rest of the second pass. -/
theorem buildEntries_mem_mono (locals : List String) :
    ∀ (lines : List String) (acc : List BranchEntry) (e : BranchEntry),
      e ∈ acc → e ∈ buildEntries locals lines acc := by
  intro lines
  induction lines with
  | nil => intro acc e he; simpa [buildEntries] using he
  | cons line rest ih =>
    intro acc e he
    simp only [buildEntries]
    split_ifs
    all_goals first
      | exact ih acc e he
      | exact ih _ e (List.mem_append.mpr (Or.inl he))

/-- The second pass keeps display names unique. -/
theorem buildEntries_nodup (locals : List String) :
    ∀ (lines : List String) (acc : List BranchEntry),
      (acc.map BranchEntry.name).Nodup →
      ((buildEntries locals lines acc).map BranchEntry.name).Nodup := by
  intro lines
  induction lines with
  | nil => intro acc h; simpa [buildEntries] using h
  | cons line rest ih =>
    intro acc h
    simp only [buildEntries]
    split_ifs with h1 h2 h3 h4
    · exact ih acc h
    · exact ih acc h
    · exact ih acc h
    all_goals
      apply ih
      rw [List.map_append]
      refine List.Nodup.append h (List.nodup_singleton _) ?_
      intro a ha hbm
      simp only [List.map_cons, List.map_nil, List.mem_singleton] at hbm
      subst hbm
      rcases List.mem_map.mp ha with ⟨e, he, hname⟩
      exact h3 (List.any_eq_true.mpr ⟨e, he, by simp [hname]⟩)

/-- When the short name is a local branch, every entry carrying that name
records the local name as its ref. -/
theorem buildEntries_ref (locals : List String) (b : String)
    (hb : locals.contains b = true) :
    ∀ (lines : List String) (acc : List BranchEntry),
      (∀ e ∈ acc, e.name = b → e.ref = b) →
      ∀ e ∈ buildEntries locals lines acc, e.name = b → e.ref = b := by
  intro lines
  induction lines with
  | nil => intro acc h; simpa [buildEntries] using h
  | cons line rest ih =>
    intro acc h
    simp only [buildEntries]
    split_ifs with h1 h2 h3 h4
    · exact ih acc h
    · exact ih acc h
    · exact ih acc h
    · apply ih
      intro e he hname
      rcases List.mem_append.mp he with h5 | h6
      · exact h e h5 hname
      · simp only [List.mem_singleton] at h6
        subst h6
        exact hname
    · apply ih
      intro e he hname
      rcases List.mem_append.mp he with h5 | h6
      · exact h e h5 hname
      · simp only [List.mem_singleton] at h6
        subst h6
        simp only at hname
        rw [hname] at h4
        exact absurd hb h4

/-- A valid local short name occurring among the raw lines yields an entry
with that display name. -/
theorem buildEntries_exists (locals : List String) (b : String)
    (hb : (b == "") = false) (hh : (b == "HEAD") = false)
    (hpre : strStartsWith b "origin/" = false) :
    ∀ (lines : List String) (acc : List BranchEntry),
      ((∃ l ∈ lines, jsTrim l = b) ∨ ∃ e ∈ acc, e.name = b) →
      ∃ e ∈ buildEntries locals lines acc, e.name = b := by
  have hsh : shortNameOf b = b := by
    simp [shortNameOf, hpre]
  intro lines
  induction lines with
  | nil =>
    intro acc h
    rcases h with h | h
    · simp at h
    · simpa [buildEntries] using h
  | cons line rest ih =>
    intro acc h
    rcases h with (⟨l, hl, hlb⟩ | ⟨e, he, hen⟩)
    · rcases List.mem_cons.mp hl with rfl | hl2
      · simp only [buildEntries]
        split_ifs with h1 h2 h3 h4
        · simp [hlb, hb] at h1
        · simp [hlb, hsh, hh] at h2
        · rcases List.any_eq_true.mp h3 with ⟨e, he, heb⟩
          refine ih acc (Or.inr ⟨e, he, ?_⟩)
          simp only [hlb, hsh] at heb
          simpa using heb
        · refine ih _ (Or.inr ⟨_, List.mem_append.mpr (Or.inr (List.mem_singleton.mpr rfl)), ?_⟩)
          simp only
          rw [hlb]
          exact hsh
        · refine ih _ (Or.inr ⟨_, List.mem_append.mpr (Or.inr (List.mem_singleton.mpr rfl)), ?_⟩)
          simp only
          rw [hlb]
          exact hsh
      · simp only [buildEntries]
        split_ifs
        all_goals exact ih _ (Or.inl ⟨l, hl2, hlb⟩)
    · refine ⟨e, buildEntries_mem_mono locals _ acc e he, hen⟩

/-- The comparator passed to the sort is transitive on nonpositive
comparisons whenever the underlying collation is. -/
theorem branchLe_trans (lc : String → String → Int) (d : String)
    (htrans : ∀ a b c : String, lc a b ≤ 0 → lc b c ≤ 0 → lc a c ≤ 0) :
    ∀ a b c : BranchEntry, branchCmp lc d a b ≤ 0 → branchCmp lc d b c ≤ 0 →
      branchCmp lc d a c ≤ 0 := by
  intro a b c hab hbc
  unfold branchCmp at hab hbc ⊢
  split_ifs at hab hbc ⊢ <;> first | omega | exact htrans _ _ _ hab hbc

/-- The comparator passed to the sort is total on nonpositive comparisons
whenever the underlying collation is. -/
theorem branchLe_total (lc : String → String → Int) (d : String)
    (htotal : ∀ a b : String, lc a b ≤ 0 ∨ lc b a ≤ 0) :
    ∀ a b : BranchEntry, branchCmp lc d a b ≤ 0 ∨ branchCmp lc d b a ≤ 0 := by
  intro a b
  unfold branchCmp
  split_ifs <;> first | (left; omega) | (right; omega) | exact htotal _ _

/-- The sorted enumeration is a permutation of the deduplicated second
pass. -/
theorem listBranches_perm (lc : String → String → Int) (raw d : String) :
    List.Perm (listBranches lc raw d)
      (buildEntries (collectLocalBranches (jsSplitLines raw)) (jsSplitLines raw) []) :=
  List.perm_insertionSort _ _

/-! ### C6: display-name uniqueness and local-ref preference -/

/-- C6: display names are unique in every branch enumeration, and whenever
the raw listing contains both a local branch and its remote-qualified
counterpart, the entry for that short name resolves its ref to the local
name. -/
theorem C6_listBranches_local_wins :
    (∀ (lc : String → String → Int) (raw d : String),
      ((listBranches lc raw d).map BranchEntry.name).Nodup) ∧
    (∀ (lc : String → String → Int) (raw d b : String),
      (b == "") = false → (b == "HEAD") = false → strStartsWith b "origin/" = false →
      (∃ l ∈ jsSplitLines raw, jsTrim l = b) →
      (∃ l ∈ jsSplitLines raw, jsTrim l = "origin/" ++ b) →
      ∃ e ∈ listBranches lc raw d, e.name = b ∧ e.ref = b) := by
  constructor
  · intro lc raw d
    have h0 := buildEntries_nodup (collectLocalBranches (jsSplitLines raw))
      (jsSplitLines raw) [] (by simp)
    exact (((listBranches_perm lc raw d).map BranchEntry.name).nodup_iff).mpr h0
  · intro lc raw d b hb hh hpre ⟨l, hl, hlb⟩ _
    have hlocal : (collectLocalBranches (jsSplitLines raw)).contains b = true := by
      apply List.elem_eq_true_of_mem
      unfold collectLocalBranches
      apply List.mem_filter.mpr
      refine ⟨List.mem_map.mpr ⟨l, hl, hlb⟩, ?_⟩
      simp [hb, hpre]
    have hex := buildEntries_exists (collectLocalBranches (jsSplitLines raw)) b hb hh hpre
      (jsSplitLines raw) [] (Or.inl ⟨l, hl, hlb⟩)
    rcases hex with ⟨e, he, hen⟩
    have href := buildEntries_ref (collectLocalBranches (jsSplitLines raw)) b hlocal
      (jsSplitLines raw) [] (by simp) e he hen
    exact ⟨e, (listBranches_perm lc raw d).mem_iff.mpr he, hen, href⟩

/-- Witness for C6: a listing with local feature and origin/feature yields
a single entry whose ref is the local name. -/
theorem C6_listBranches_local_wins_witness :
    (∃ l ∈ jsSplitLines "main\nfeature\norigin/feature", jsTrim l = "feature") ∧
    (∃ l ∈ jsSplitLines "main\nfeature\norigin/feature",
      jsTrim l = "origin/" ++ "feature") ∧
    ∃ e ∈ listBranches ordCompare "main\nfeature\norigin/feature" "main",
      e.name = "feature" ∧ e.ref = "feature" :=
  ⟨by decide, by decide,
    C6_listBranches_local_wins.2 ordCompare "main\nfeature\norigin/feature" "main" "feature"
      (by decide) (by decide) (by decide) (by decide) (by decide)⟩

/-! ### C3: enumeration order -/

/-- C3 (amended): for any collation whose nonpositive comparisons are
transitive and total, the enumeration places the default branch first
whenever it occurs among the display names, and the remaining entries are
ordered by that collation; the collation the code passes is localeCompare,
the locale-aware host collation, not case-sensitive ordinal comparison. -/
theorem C3_listBranches_order (lc : String → String → Int)
    (htrans : ∀ a b c : String, lc a b ≤ 0 → lc b c ≤ 0 → lc a c ≤ 0)
    (htotal : ∀ a b : String, lc a b ≤ 0 ∨ lc b a ≤ 0) (raw d : String) :
    (d ∈ (listBranches lc raw d).map BranchEntry.name →
      (listBranches lc raw d).head?.map BranchEntry.name = some d) ∧
    (listBranches lc raw d).tail.Pairwise (fun a b => lc a.name b.name ≤ 0) := by
  haveI : IsTrans BranchEntry (fun a b => branchCmp lc d a b ≤ 0) :=
    ⟨branchLe_trans lc d htrans⟩
  haveI : IsTotal BranchEntry (fun a b => branchCmp lc d a b ≤ 0) :=
    ⟨branchLe_total lc d htotal⟩
  have hsorted : (listBranches lc raw d).Pairwise (fun a b => branchCmp lc d a b ≤ 0) :=
    List.sorted_insertionSort _ _
  have hnd : ((listBranches lc raw d).map BranchEntry.name).Nodup := by
    have h0 := buildEntries_nodup (collectLocalBranches (jsSplitLines raw))
      (jsSplitLines raw) [] (by simp)
    exact (((listBranches_perm lc raw d).map BranchEntry.name).nodup_iff).mpr h0
  rcases hout : listBranches lc raw d with _ | ⟨e, t⟩
  · constructor
    · intro h; simp at h
    · simp
  · rw [hout] at hsorted hnd
    have hpc := List.pairwise_cons.mp hsorted
    have hfirst : d ∈ (e :: t).map BranchEntry.name → e.name = d := by
      intro hdm
      by_contra he
      simp only [List.map_cons, List.mem_cons] at hdm
      rcases hdm with h1 | h2
      · exact he h1.symm
      · rcases List.mem_map.mp h2 with ⟨x, hx, hxd⟩
        have hr := hpc.1 x hx
        have he2 : (e.name == d) = false := by simpa using he
        have hx2 : (x.name == d) = true := by simpa using hxd
        unfold branchCmp at hr
        rw [he2, hx2] at hr
        simp at hr
    constructor
    · intro hdm
      simp [hfirst hdm]
    · simp only [List.tail_cons]
      refine List.Pairwise.imp_of_mem ?_ hpc.2
      intro a b ha hb hr
      simp only [List.map_cons, List.nodup_cons] at hnd
      have hna : a.name ≠ d := by
        intro hna
        have hed : e.name = d :=
          hfirst (by simp only [List.map_cons, List.mem_cons]
                     exact Or.inr (List.mem_map.mpr ⟨a, ha, hna⟩))
        exact hnd.1 (hed ▸ hna ▸ List.mem_map.mpr ⟨a, ha, rfl⟩)
      have hnb : b.name ≠ d := by
        intro hnb
        have hed : e.name = d :=
          hfirst (by simp only [List.map_cons, List.mem_cons]
                     exact Or.inr (List.mem_map.mpr ⟨b, hb, hnb⟩))
        exact hnd.1 (hed ▸ hnb ▸ List.mem_map.mpr ⟨b, hb, rfl⟩)
      have h1 : (a.name == d) = false := by simpa using hna
      have h2 : (b.name == d) = false := by simpa using hnb
      unfold branchCmp at hr
      rw [h1, h2] at hr
      simpa using hr

/-- Witness for C3 with the ordinal comparator on a concrete listing. -/
theorem C3_listBranches_order_witness :
    ("main" ∈ (listBranches ordCompare "main\nfeature\ndev" "main").map BranchEntry.name) ∧
    (listBranches ordCompare "main\nfeature\ndev" "main").head?.map BranchEntry.name =
      some "main" ∧
    (listBranches ordCompare "main\nfeature\ndev" "main").tail.Pairwise
      (fun a b => ordCompare a.name b.name ≤ 0) :=
  ⟨by decide,
    (C3_listBranches_order ordCompare ordCompare_le_trans ordCompare_le_total
      "main\nfeature\ndev" "main").1 (by decide),
    (C3_listBranches_order ordCompare ordCompare_le_trans ordCompare_le_total
      "main\nfeature\ndev" "main").2⟩

/-- C3 counterexample: under the default-locale model of localeCompare a
listing containing Zebra and apple enumerates as [main, apple, Zebra],
whose tail is not ordered by case-sensitive ordinal comparison because
Zebra is ordinally below apple (Z has code 90, a has code 97). -/
theorem C3_listBranches_order_cex :
    (listBranches localeCompareAscii "main\nZebra\napple" "main").map BranchEntry.name =
      ["main", "apple", "Zebra"] ∧
    ordinalLtB "Zebra".data "apple".data = true ∧
    ¬ ((listBranches localeCompareAscii "main\nZebra\napple" "main").tail.map
        BranchEntry.name).Pairwise (fun a b => ordinalLtB b.data a.data = false) :=
  ⟨by decide, by decide, by decide⟩

/-! ### C1 and C9: cleanup safety classifier -/

/-- C1: for every candidate the composite verdict equals merged OR
(deletedOnRemote AND the entry is detached) OR (a review request exists
whose state denotes merged); a candidate whose branch is absent from the
merged-branches output, whose remote tracking ref is live and that has no
review request is not safe, while the same candidate with a review request
in merged state is safe. -/
theorem C1_safeToClean_composite :
    (∀ (env : CleanupEnv) (e : WorktreeEntry),
      (candidateFor env e).safeToClean =
        ((candidateFor env e).merged ||
          ((candidateFor env e).deletedOnRemote && (candidateFor env e).entry.branch.isNone) ||
          prMergedState (candidateFor env e).pr)) ∧
    (∀ (env : CleanupEnv) (pth b : String) (mn : Bool), b ≠ "" →
      isBranchMerged env.mergedOutput b = false →
      env.remoteRefExists b = true →
      env.prLookup b = none →
      (candidateFor env ⟨pth, some b, mn⟩).safeToClean = false) ∧
    (∀ (env : CleanupEnv) (pth b : String) (mn : Bool) (x : PrInfo), b ≠ "" →
      isBranchMerged env.mergedOutput b = false →
      env.remoteRefExists b = true →
      env.hasGh = true →
      env.prLookup b = some x →
      x.state = "MERGED" →
      (candidateFor env ⟨pth, some b, mn⟩).safeToClean = true) := by
  refine ⟨?_, ?_, ?_⟩
  · intro env e
    rcases e with ⟨pth, br, mn⟩
    rcases br with _ | b
    · simp [candidateFor, optStrTruthy, prMergedState]
    · by_cases hb : b = ""
      · subst hb; simp [candidateFor, optStrTruthy, prMergedState]
      · have hb2 : (b == "") = false := by simpa using hb
        simp [candidateFor, optStrTruthy, hb2]
  · intro env pth b mn hb hm hr hp
    have hb2 : (b == "") = false := by simpa using hb
    simp [candidateFor, optStrTruthy, hb2, hm, hr, hp, isBranchDeletedOnRemote, prMergedState]
  · intro env pth b mn x hb hm hr hgh hp hst
    have hb2 : (b == "") = false := by simpa using hb
    simp [candidateFor, optStrTruthy, hb2, hm, hr, hgh, hp, isBranchDeletedOnRemote,
      prMergedState, hst]

/-- Witness for C1: a concrete unmerged candidate with a live remote ref
is not safe, and becomes safe once a merged review request is present. -/
theorem C1_safeToClean_composite_witness :
    ("feature" : String) ≠ "" ∧
    isBranchMerged (some "  dev\n* main") "feature" = false ∧
    (candidateFor ⟨some "  dev\n* main", fun _ => true, fun _ => none, true⟩
      ⟨"/w/repo-feature", some "feature", false⟩).safeToClean = false ∧
    (candidateFor ⟨some "  dev\n* main", fun _ => true,
        fun _ => some ⟨7, "title", "MERGED", "url"⟩, true⟩
      ⟨"/w/repo-feature", some "feature", false⟩).safeToClean = true :=
  ⟨by decide, by decide,
    C1_safeToClean_composite.2.1 ⟨some "  dev\n* main", fun _ => true, fun _ => none, true⟩
      "/w/repo-feature" "feature" false (by decide) (by decide) rfl rfl,
    C1_safeToClean_composite.2.2 ⟨some "  dev\n* main", fun _ => true,
        fun _ => some ⟨7, "title", "MERGED", "url"⟩, true⟩
      "/w/repo-feature" "feature" false ⟨7, "title", "MERGED", "url"⟩ (by decide) (by decide)
      rfl rfl rfl rfl⟩

/-- C9: the deletedOnRemote-and-detached disjunct of the composite verdict
is unreachable because the remote probe is computed as false for an entry
without a truthy branch; hence the verdict always equals merged OR a
merged review request, and a detached worktree is never pre-marked safe. -/
theorem C9_safeToClean_detached_unreachable :
    (∀ (env : CleanupEnv) (e : WorktreeEntry),
      ((candidateFor env e).deletedOnRemote && !(optStrTruthy e.branch)) = false) ∧
    (∀ (env : CleanupEnv) (e : WorktreeEntry),
      (candidateFor env e).safeToClean =
        ((candidateFor env e).merged || prMergedState (candidateFor env e).pr)) ∧
    (∀ (env : CleanupEnv) (pth : String) (mn : Bool),
      (candidateFor env ⟨pth, none, mn⟩).safeToClean = false) := by
  refine ⟨?_, ?_, ?_⟩
  · intro env e
    rcases e with ⟨pth, br, mn⟩
    rcases br with _ | b
    · simp [candidateFor, optStrTruthy]
    · by_cases hb : b = ""
      · subst hb; simp [candidateFor, optStrTruthy]
      · have hb2 : (b == "") = false := by simpa using hb
        simp [candidateFor, optStrTruthy, hb2]
  · intro env e
    rcases e with ⟨pth, br, mn⟩
    rcases br with _ | b
    · simp [candidateFor, optStrTruthy, prMergedState]
    · by_cases hb : b = ""
      · subst hb; simp [candidateFor, optStrTruthy, prMergedState]
      · have hb2 : (b == "") = false := by simpa using hb
        simp [candidateFor, optStrTruthy, hb2]
  · intro env pth mn
    simp [candidateFor, optStrTruthy, prMergedState]

/-! ### C2: the reclaim batch loop -/

/-- Characterization of the reclaim fold for an arbitrary accumulator. -/
theorem reclaimBatch_foldl (removeResult : WorktreeCandidate → Option String)
    (deleteResult : String → Option String) :
    ∀ (cs : List WorktreeCandidate) (n : Nat) (es : List String),
      (cs.foldl (reclaimStep removeResult deleteResult) (n, es)).1 =
        n + (cs.filter (fun c => (removeResult c).isNone)).length ∧
      (cs.foldl (reclaimStep removeResult deleteResult) (n, es)).2 =
        es ++ cs.filterMap
          (fun c => (removeResult c).map (fun m => reclaimLabel c ++ ": " ++ m)) := by
  intro cs
  induction cs with
  | nil => intro n es; simp
  | cons c cs ih =>
    intro n es
    rcases h : removeResult c with _ | msg
    · have h2 := ih (n + 1) es
      simp only [List.foldl_cons, reclaimStep, h] at h2 ⊢
      refine ⟨h2.1.trans ?_, h2.2.trans ?_⟩
      · simp [List.filter_cons, h]
        omega
      · simp [List.filterMap_cons, h]
    · have h2 := ih n (es ++ [reclaimLabel c ++ ": " ++ msg])
      simp only [List.foldl_cons, reclaimStep, h] at h2 ⊢
      refine ⟨h2.1.trans ?_, h2.2.trans ?_⟩
      · simp [List.filter_cons, h]
      · simp [List.filterMap_cons, h]

/-- The removal successes and the recorded failures partition the batch. -/
theorem reclaim_partition (removeResult : WorktreeCandidate → Option String)
    (g : WorktreeCandidate → String → String) :
    ∀ cs : List WorktreeCandidate,
      (cs.filter (fun c => (removeResult c).isNone)).length +
        (cs.filterMap (fun c => (removeResult c).map (g c))).length = cs.length := by
  intro cs
  induction cs with
  | nil => simp
  | cons c cs ih =>
    rcases h : removeResult c with _ | msg <;>
      simp [List.filter_cons, List.filterMap_cons, h] <;> omega

/-- C2: the reclaimer processes every confirmed candidate regardless of
earlier failures; the success count is exactly the number of items whose
worktree removal succeeded, each removal failure is recorded with the
branch-or-path label and the thrown message, successes and failures
partition the batch, and the swallowed branch-deletion outcomes never
influence the result. -/
theorem C2_reclaimBatch_spec :
    ∀ (removeResult : WorktreeCandidate → Option String)
      (deleteResult deleteResult2 : String → Option String)
      (cs : List WorktreeCandidate),
      (reclaimBatch removeResult deleteResult cs).1 =
        (cs.filter (fun c => (removeResult c).isNone)).length ∧
      (reclaimBatch removeResult deleteResult cs).2 =
        cs.filterMap (fun c => (removeResult c).map (fun m => reclaimLabel c ++ ": " ++ m)) ∧
      (reclaimBatch removeResult deleteResult cs).1 +
        (reclaimBatch removeResult deleteResult cs).2.length = cs.length ∧
      reclaimBatch removeResult deleteResult cs = reclaimBatch removeResult deleteResult2 cs := by
  intro rr dr dr2 cs
  have h := reclaimBatch_foldl rr dr cs 0 []
  have hp := reclaim_partition rr (fun c m => reclaimLabel c ++ ": " ++ m) cs
  refine ⟨by simpa using h.1, by simpa using h.2, ?_, rfl⟩
  rw [(by simpa using h.1 : (reclaimBatch rr dr cs).1 = _),
    (by simpa using h.2 : (reclaimBatch rr dr cs).2 = _)]
  exact hp

/-! ### C5: worktree enumeration primary flag -/

/-- Flushing a record preserves the primary-flag invariant: the head entry
is primary and every entry after the head is secondary. -/
theorem wtFlush_inv (st : WtParseState) (es : List WorktreeEntry)
    (hh : ∀ x, es.head? = some x → x.isMain = true)
    (ht : ∀ x ∈ es.tail, x.isMain = false) :
    (∀ x, (wtFlush st es).head? = some x → x.isMain = true) ∧
    (∀ x ∈ (wtFlush st es).tail, x.isMain = false) := by
  rcases st with ⟨pth, br⟩
  rcases pth with _ | p
  · exact ⟨hh, ht⟩
  · by_cases hp : (p == "") = true
    · simp only [wtFlush, hp, if_true]
      exact ⟨hh, ht⟩
    · rcases es with _ | ⟨e, t⟩
      · simp only [wtFlush, hp, if_false]
        refine ⟨?_, ?_⟩
        · intro x hx
          simp only [List.nil_append, List.head?] at hx
          cases hx
          rfl
        · intro x hx
          simp at hx
      · simp only [wtFlush, hp, if_false, List.cons_append]
        refine ⟨?_, ?_⟩
        · intro x hx
          simp only [List.head?] at hx
          cases hx
          exact hh e rfl
        · intro x hx
          simp at hx
          rcases hx with h1 | h2
          · exact ht x (by simpa using h1)
          · subst h2
            rfl

/-- One parser step preserves the primary-flag invariant. -/
theorem wtStep_inv (line : String) (acc : WtParseState × List WorktreeEntry)
    (hh : ∀ x, acc.2.head? = some x → x.isMain = true)
    (ht : ∀ x ∈ acc.2.tail, x.isMain = false) :
    (∀ x, ((wtStep acc line).2).head? = some x → x.isMain = true) ∧
    (∀ x ∈ ((wtStep acc line).2).tail, x.isMain = false) := by
  unfold wtStep
  split_ifs <;> first | exact ⟨hh, ht⟩ | exact wtFlush_inv acc.1 acc.2 hh ht

/-- The whole parser fold preserves the primary-flag invariant. -/
theorem wtFold_inv (lines : List String) :
    ∀ (acc : WtParseState × List WorktreeEntry),
      (∀ x, acc.2.head? = some x → x.isMain = true) →
      (∀ x ∈ acc.2.tail, x.isMain = false) →
      (∀ x, ((lines.foldl wtStep acc).2).head? = some x → x.isMain = true) ∧
      (∀ x ∈ ((lines.foldl wtStep acc).2).tail, x.isMain = false) := by
  induction lines with
  | nil => intro acc hh ht; exact ⟨hh, ht⟩
  | cons l ls ih =>
    intro acc hh ht
    have h := wtStep_inv l acc hh ht
    exact ih (wtStep acc l) h.1 h.2

/-- C5: for every nonempty porcelain listing the enumerator marks exactly
one entry as the primary workspace, that entry is the first parsed record,
and every subsequent record is secondary. -/
theorem C5_listWorktrees_primary : ∀ raw : String,
    listWorktrees raw = [] ∨
      ((listWorktrees raw).countP (fun e => e.isMain) = 1 ∧
        (listWorktrees raw).head?.map (fun e => e.isMain) = some true ∧
        ∀ e ∈ (listWorktrees raw).tail, e.isMain = false) := by
  intro raw
  have h0 := wtFold_inv (jsSplitLines raw) (⟨none, none⟩, []) (by simp) (by simp)
  have h := wtFlush_inv ((jsSplitLines raw).foldl wtStep (⟨none, none⟩, [])).1
    ((jsSplitLines raw).foldl wtStep (⟨none, none⟩, [])).2 h0.1 h0.2
  have hlw : listWorktrees raw =
      wtFlush ((jsSplitLines raw).foldl wtStep (⟨none, none⟩, [])).1
        ((jsSplitLines raw).foldl wtStep (⟨none, none⟩, [])).2 := rfl
  rw [← hlw] at h
  rcases hl : listWorktrees raw with _ | ⟨e, t⟩
  · exact Or.inl rfl
  · right
    rw [hl] at h
    have he : e.isMain = true := h.1 e rfl
    have htl : ∀ x ∈ t, x.isMain = false := by
      intro x hx
      exact h.2 x (by simpa using hx)
    refine ⟨?_, by simp [he], by simpa using htl⟩
    have hz : t.countP (fun e => e.isMain) = 0 := by
      apply List.countP_eq_zero.mpr
      intro a ha
      simp [htl a ha]
    simp [List.countP_cons, hz, he]

/-- Witness for C10: a bogus dash flag is skipped, a bogus positional is a
fatal usage error. -/
theorem C10_parseArgs_unknown_args_witness :
    strStartsWith "--bogus" "-" = true ∧
    parseArgsGo ["--bogus", "cleanup"] initCliArgs = parseArgsGo ["cleanup"] initCliArgs ∧
    strStartsWith "oops" "-" = false ∧
    parseArgsGo ["oops"] initCliArgs = .error ("Unknown command: " ++ "oops") :=
  ⟨by decide,
    C10_parseArgs_unknown_args.1 "--bogus" ["cleanup"] initCliArgs (by decide) (by decide)
      (by decide) (by decide) (by decide) (by decide) (by decide),
    by decide,
    C10_parseArgs_unknown_args.2.1 "oops" [] initCliArgs (by decide) (by decide) (by decide)
      (by decide)⟩

end Slopcannon
